import Mathlib

/-!
# Verification of the agno-docs-mcp document retrieval core

Shallow embedding of `src/agno_docs_mcp/utils/paths.py`,
`src/agno_docs_mcp/utils/content.py` and `src/agno_docs_mcp/utils/search.py`.

Python strings are modelled as `List Char` (Python `str` is a sequence of
code points, and all operations used by the code — slicing, `strip`,
`split`, `startswith`, `in`, `lower` — are per-code-point).  `str.lower`
is modelled with `Char.toLower`, which agrees with Python on ASCII; all
string constants in the code are ASCII.

The filesystem is modelled abstractly: an existence predicate on
canonical path-segment lists for `paths.py`, a name-to-content map for
the snippets directory, and a list of (relative path, content) pairs for
the search corpus.  `Path.resolve()` is modelled lexically (no
symlinks): `.` and empty segments are dropped and `..` removes the
previous segment, which is what `resolve()` computes for symlink-free
trees.  `Path.exists()` on a path containing `..` is modelled as
existence of the canonicalized path (true on POSIX whenever the
intermediate directories exist; concrete counterexample instances are
chosen so that they do).
-/

set_option maxRecDepth 4000

/-- Python strings as lists of code points. -/
abbrev Str := List Char

/-- The single-quote character (code point 39). -/
def quoteChar : Char := Char.ofNat 39

/-- Python `\s` / `str.strip()` whitespace, ASCII part:
space, tab, newline, carriage return, vertical tab, form feed. -/
def isPySpace (c : Char) : Bool :=
  c == ' ' || c == '\t' || c == '\n' || c == '\r' || c == '\x0b' || c == '\x0c'

/-- Python `s.lower()` (ASCII model). -/
def lowerStr (s : Str) : Str := s.map Char.toLower

/-- Python `needle in hay` for strings: substring test. -/
def containsSub (needle : Str) : Str → Bool
  | [] => needle.isEmpty
  | c :: rest => needle.isPrefixOf (c :: rest) || containsSub needle rest

/-- Python `s.strip(chars)` : drop characters satisfying `p` from both ends. -/
def pyStrip (p : Char → Bool) (s : Str) : Str :=
  ((s.dropWhile p).reverse.dropWhile p).reverse

/-- Split a string on a separator character (Python `str.split(sep)` shape:
`splitOnChar '/' "" = [""]`, separators produce empty fields). -/
def splitOnChar (sep : Char) : Str → List Str
  | [] => [[]]
  | c :: rest =>
    if c = sep then [] :: splitOnChar sep rest
    else
      match splitOnChar sep rest with
      | [] => [[c]]
      | s :: ss => (c :: s) :: ss

/-! ## paths.py : path resolution -/

/-- Path components of a `pathlib` path built from a relative string:
`pathlib` drops empty and `"."` components but keeps `".."`. -/
def splitSegs (s : Str) : List Str :=
  (splitOnChar '/' s).filter (fun seg => seg ≠ [] ∧ seg ≠ (".").toList)

/-- `Path.resolve()` without symlinks: process segments left to right,
dropping `.`/empty and letting `..` remove the previous segment (at the
filesystem root `..` is a no-op, as in POSIX). -/
def canonicalize (segs : List Str) : List Str :=
  segs.foldl
    (fun acc s =>
      if s = [] ∨ s = (".").toList then acc
      else if s = ("..").toList then acc.dropLast
      else acc ++ [s])
    []

/-- `str(Path)` for an absolute path given by its segments
(`pathStr ["a","b"] = "/a/b"`). -/
def pathStr (segs : List Str) : Str :=
  segs.foldl (fun acc s => acc ++ '/' :: s) []

/-- `is_safe_path(base_dir, target_path)` from `paths.py`:
canonicalize both and test `str(resolved_target).startswith(str(resolved_base))`.
The Python `try/except` around `resolve()` cannot fire in the lexical
model (the model is total), matching the fact that the guard never raises. -/
def is_safe_path (base_dir target : List Str) : Bool :=
  (pathStr (canonicalize base_dir)).isPrefixOf (pathStr (canonicalize target))

/-- `base_dir / clean_path` in `pathlib`: if `clean_path` is absolute it
replaces `base_dir` entirely, otherwise the segments are appended. -/
def joinRel (base : List Str) (clean : Str) : List Str :=
  if clean.headD ' ' = '/' then splitSegs clean else base ++ splitSegs clean

/-- The name of a path with its trailing extension removed, following
`PurePath.with_suffix`: the suffix starts at the last `.` that is
neither the first nor the last character (`name.rfind('.')` with
`0 < i < len(name) - 1`); a name with no such dot — including a name
ending in `.`, to which Python appends — is returned unchanged. -/
def dropExt (name : Str) : Str :=
  let rev := name.reverse
  let afterRev := rev.takeWhile (fun c => c ≠ '.')
  if afterRev = [] then name
  else if afterRev.length + 1 ≤ rev.length then
    let stemRev := rev.drop (afterRev.length + 1)
    if stemRev = [] then name else stemRev.reverse
  else name

/-- `Path.with_suffix(ext)` applied to the last segment of a path. -/
def withSuffix (segs : List Str) (ext : Str) : List Str :=
  segs.dropLast ++ [dropExt (segs.getLastD []) ++ ext]

/-- Abstract filesystem for `paths.py`: which canonical segment lists exist. -/
structure PathFS where
  has : List Str → Bool

/-- `resolve_doc_path(doc_path, base_dir)` from `paths.py`:
normalize (`strip("/")` then `strip()`), empty path resolves to the base,
traversal guard via `is_safe_path`, then existence cascade: exact
candidate, `.mdx` variant, `.md` variant, else `(candidate, False)`. -/
def resolve_doc_path (fs : PathFS) (doc_path : Str) (base_dir : List Str) :
    List Str × Bool :=
  let clean := pyStrip isPySpace (pyStrip (fun c => c == '/') doc_path)
  if clean = [] then (base_dir, true)
  else
    let full := joinRel base_dir clean
    if ¬ is_safe_path base_dir full then (full, false)
    else if fs.has (canonicalize full) then (full, true)
    else
      let mdx := withSuffix full ((".mdx").toList)
      if fs.has (canonicalize mdx) then (mdx, true)
      else
        let md := withSuffix full ((".md").toList)
        if fs.has (canonicalize md) then (md, true)
        else (full, false)

/-- The extension cascade exactly as the spec words it (§4.1): "If the
exact candidate exists, return it.  Otherwise retry with a `.mdx`
suffix, then a `.md` suffix, applied by replacing the existing path's
trailing extension.  First match wins; if no variant exists, return the
original exact candidate with `found = false`."  Used to compare the
source's behaviour against the spec. -/
def resolve_cascade_spec (fs : PathFS) (full : List Str) : List Str × Bool :=
  if fs.has (canonicalize full) then (full, true)
  else if fs.has (canonicalize (withSuffix full ((".mdx").toList))) then
    (withSuffix full ((".mdx").toList), true)
  else if fs.has (canonicalize (withSuffix full ((".md").toList))) then
    (withSuffix full ((".md").toList), true)
  else (full, false)

/-! ## search.py : keyword ranking engine -/

/-- `FileScore` from `search.py`.  `keyword_matches` is a Python `set`,
modelled as a duplicate-free list built by `setInsert`; the counters are
Python ints that only ever increase from 0, hence `Nat`. -/
structure FileScore where
  path : Str
  keyword_matches : List Str
  total_matches : Nat
  title_matches : Nat
  path_relevance : Nat
deriving DecidableEq

/-- Python `set.add`: insert if absent (position is irrelevant to the code,
which only takes the set's size and membership). -/
def setInsert (l : List Str) (x : Str) : List Str :=
  if x ∈ l then l else l ++ [x]

/-- The fixed domain vocabulary from `calculate_path_relevance`. -/
def highValueDirs : List Str :=
  [("agents").toList, ("teams").toList, ("workflows").toList,
   ("tools").toList, ("memory").toList, ("knowledge").toList,
   ("models").toList, ("agentos").toList, ("integrations").toList]

/-- `calculate_path_relevance(file_path, keywords)` from `search.py`. -/
def calculate_path_relevance (file_path : Str) (keywords : List Str) : Nat :=
  let path_lower := lowerStr file_path
  (if (("reference/").toList).isPrefixOf path_lower then 2 else 0)
  + keywords.foldl
      (fun acc kw => if containsSub (lowerStr kw) path_lower then acc + 3 else acc) 0
  + (if highValueDirs.any (fun d => containsSub d path_lower) then 1 else 0)

/-- `calculate_final_score(score, total_keywords)` from `search.py`. -/
def calculate_final_score (score : FileScore) (total_keywords : Nat) : Nat :=
  score.total_matches * 1 +
  score.title_matches * 3 +
  score.path_relevance * 2 +
  score.keyword_matches.length * 5 +
  (if score.keyword_matches.length = total_keywords then 10 else 0)

/-- The body of the innermost loop of `search_documents`: if the keyword
is contained (case-insensitively) in the line, add it to the match set,
bump the total counter, and bump the title counter when the line starts
with `#` or contains `"title"` (lowercased); `line_lower` is
`lowerStr line`, hoisted as in the source. -/
def scanKw (line line_lower : Str) (s : FileScore) (kw : Str) : FileScore :=
  if containsSub (lowerStr kw) line_lower then
    { s with
      keyword_matches := setInsert s.keyword_matches kw
      total_matches := s.total_matches + 1
      title_matches :=
        if (("#").toList).isPrefixOf line || containsSub (("title").toList) line_lower
        then s.title_matches + 1 else s.title_matches }
  else s

/-- The inner keyword loop of `search_documents` for one line. -/
def scanLine (keywords : List Str) (line : Str) (s0 : FileScore) : FileScore :=
  keywords.foldl (scanKw line (lowerStr line)) s0

/-- The per-file scan of `search_documents`.  The Python code creates the
`FileScore` (with its `path_relevance`) lazily on the first match; since
all other fields start at zero this is equivalent to creating it up
front and keeping only files whose match set is non-empty, which is what
`search_documents` below does. -/
def scoreFile (keywords : List Str) (relPath content : Str) : FileScore :=
  (splitOnChar '\n' content).foldl
    (fun s line => scanLine keywords line s)
    { path := relPath, keyword_matches := [], total_matches := 0,
      title_matches := 0,
      path_relevance := calculate_path_relevance relPath keywords }

/-- Stable insertion into a list sorted descending by `key`: a new element
goes in front of the first element whose key is ≤ its own. -/
def insertDesc (key : FileScore → Nat) (x : FileScore) : List FileScore → List FileScore
  | [] => [x]
  | y :: ys => if key y ≤ key x then x :: y :: ys else y :: insertDesc key x ys

/-- Stable descending sort by `key`.  Python's `sorted(..., reverse=True)`
is specified to be a stable sort with reversed comparisons; a stable
insertion sort computes the same list. -/
def stableSortDesc (key : FileScore → Nat) : List FileScore → List FileScore
  | [] => []
  | x :: xs => insertDesc key x (stableSortDesc key xs)

/-- `search_documents(keywords, base_dir, limit)` from `search.py`.
The filesystem walk plus `read_text` plus `relative_to` is modelled by
`files : List (Str × Str)` — the readable documents under the root as
(relative path, content) pairs, in enumeration order; files whose read
raises are skipped by the code and hence simply absent from `files`.
The `file_scores` dict (keyed by the relative path, which is unique per
walked file) is modelled by the per-file `scoreFile`. -/
def search_documents (keywords : List Str) (files : List (Str × Str))
    (limit : Nat) : List Str :=
  if keywords = [] then []
  else
    let scores :=
      (files.map (fun pc => scoreFile keywords pc.1 pc.2)).filter
        (fun s => decide (s.keyword_matches ≠ []))
    let ranked :=
      stableSortDesc (fun s => calculate_final_score s keywords.length) scores
    (ranked.take limit).map (fun s => s.path)

/-! ## content.py : frontmatter parsing -/

/-- The frontmatter mapping.  `yaml.safe_load` is third-party and is kept
abstract (see `parse_frontmatter`); its successful results are modelled
as association lists of string keys and values, looked up first-match
like a Python dict with unique keys. -/
abbrev Frontmatter := List (Str × Str)

/-- `dict.get(key)` on the frontmatter mapping. -/
def lookupFm : Frontmatter → Str → Option Str
  | [], _ => none
  | (k, v) :: rest, key => if k = key then some v else lookupFm rest key

/-- The position *after* the last `'\n'` of a character list, if any.
Used for the greedy `\s*\n` tail of the closing-delimiter regex. -/
def lastNlEnd : Str → Option Nat
  | [] => none
  | c :: rest =>
    match lastNlEnd rest with
    | some k => some (k + 1)
    | none => if c = '\n' then some 1 else none

/-- A match of the regex `\n---\s*\n` anchored at the head of `cs`,
returning the match length.  The greedy `\s*\n` consumes the maximal
whitespace run after `\n---` up to and including its last newline, and
matches only if that run contains a newline. -/
def matchCloseAt (cs : Str) : Option Nat :=
  match cs with
  | '\n' :: '-' :: '-' :: '-' :: rest =>
    match lastNlEnd (rest.takeWhile isPySpace) with
    | some k => some (4 + k)
    | none => none
  | _ => none

/-- `re.search(r"\n---\s*\n", s)`: the leftmost match, as
(start index, end index) in Python's conventions. -/
def findClose : Str → Option (Nat × Nat)
  | [] => none
  | c :: rest =>
    match matchCloseAt (c :: rest) with
    | some len => some (0, len)
    | none =>
      match findClose rest with
      | some (s, e) => some (s + 1, e + 1)
      | none => none

/-- The delimiter-splitting part of `parse_frontmatter(content)`:
if `content` starts with `---` and `content[3:]` contains a closing
delimiter match at `(st, en)`, return
`(content[3:st+3], content[en+3:])`; otherwise `none`. -/
def pfSplit (content : Str) : Option (Str × Str) :=
  if (("---").toList).isPrefixOf content then
    let s := content.drop 3
    match findClose s with
    | some (st, en) => some (s.take st, s.drop en)
    | none => none
  else none

/-- `parse_frontmatter(content)` from `content.py`, parameterized by the
third-party `yaml.safe_load`: `yaml hdr = none` models both a raised
`yaml.YAMLError` (caught, yielding `{}`) and a falsy result (the
`or {}`); either way the code substitutes the empty mapping.  The body
component never depends on `yaml`. -/
def parse_frontmatter (yaml : Str → Option Frontmatter) (content : Str) :
    Frontmatter × Str :=
  match pfSplit content with
  | some (fmStr, remaining) => ((yaml fmStr).getD [], remaining)
  | none => ([], content)

/-! ## content.py : snippet resolution -/

/-- The snippets directory as an abstract map from file name (relative to
the snippets dir) to raw file content; `none` means the file does not
exist.  Reads of existing files are assumed to succeed (the
`OSError/UnicodeDecodeError` branch of `replace_snippet` is about
unreadable existing files and is not exercised by any claim). -/
def SnipFS := Str → Option Str

/-- The process-wide `_snippet_cache` dict, in insertion order. -/
abbrev Cache := List (Str × Str)

/-- Python dict lookup on the snippet cache. -/
def lookupCache : Cache → Str → Option Str
  | [], _ => none
  | (k, v) :: rest, key => if k = key then some v else lookupCache rest key

/-- Python dict assignment `cache[k] = v`: overwrite in place or append. -/
def cacheInsert : Cache → Str → Str → Cache
  | [], k, v => [(k, v)]
  | (k', v') :: rest, k, v =>
    if k' = k then (k, v) :: rest else (k', v') :: cacheInsert rest k v

/-- Case-insensitive literal match: `lit` (given lowercase) against the
head of `cs`; returns the rest of `cs` on success. -/
def ciPrefix : Str → Str → Option Str
  | [], rest => some rest
  | _, [] => none
  | l :: ls, c :: cs => if Char.toLower c = l then ciPrefix ls cs else none

/-- The character class `[^"\']` of the snippet-tag regex: anything but
the two quote characters. -/
def snipNameChar (c : Char) : Bool := !(c == '"') && !(c == quoteChar)

/-- The `\s+` of the snippet-tag regex: require at least one whitespace
character, consuming the maximal run (the following literal `file=`
starts with a non-space, so no backtracking occurs). -/
def reqSpace (r : Str) : Option Str :=
  match r.takeWhile isPySpace with
  | [] => none
  | _ :: _ => some (r.dropWhile isPySpace)

/-- The `["\']` of the snippet-tag regex: one quote character of either
kind. -/
def reqQuote : Str → Option Str
  | [] => none
  | c :: rest => if c = '"' ∨ c = quoteChar then some rest else none

/-- The greedy capture `([^"\']+)` of the snippet-tag regex: the maximal
non-empty run of non-quote characters, and what follows it. -/
def capture (r : Str) : Option (Str × Str) :=
  if r.takeWhile snipNameChar = [] then none
  else some (r.takeWhile snipNameChar, r.drop (r.takeWhile snipNameChar).length)

/-- The `\s*/?>` tail of the snippet-tag regex (`/` and `>` are not
whitespace, so greedy `\s*` needs no backtracking). -/
def reqClose (r : Str) : Option Str :=
  match r.dropWhile isPySpace with
  | '/' :: '>' :: r7 => some r7
  | '>' :: r7 => some r7
  | _ => none

/-- A match of `<Snippet\s+file=["\']([^"\']+)["\']\s*/?>` (IGNORECASE)
anchored at the head of `cs`, returning the captured file name and the
rest of the string after the match.  Mirrors the regex exactly: the
quotes need not agree, the capture is a maximal non-empty run of
non-quote characters, and an optional `/` precedes the closing `>`. -/
def matchSnippetAt (cs : Str) : Option (Str × Str) :=
  (ciPrefix (("<snippet").toList) cs).bind fun r1 =>
  (reqSpace r1).bind fun r2 =>
  (ciPrefix (("file=").toList) r2).bind fun r3 =>
  (reqQuote r3).bind fun r4 =>
  (capture r4).bind fun nr =>
  (reqQuote nr.2).bind fun r6 =>
  (reqClose r6).bind fun r7 => some (nr.1, r7)

/-- The leftmost snippet-tag match in `cs`: `(prefix, name, rest)` with
`cs = prefix ++ matched-text ++ rest` and no match starting inside
`prefix`. -/
def findSnippet : Str → Option (Str × Str × Str)
  | [] => none
  | c :: rest =>
    match matchSnippetAt (c :: rest) with
    | some (name, after) => some ([], name, after)
    | none =>
      match findSnippet rest with
      | some (pre, name, after) => some (c :: pre, name, after)
      | none => none

/-- The missing-fragment inline marker from `replace_snippet`. -/
def notFoundComment (name : Str) : Str :=
  ("<!-- Snippet ").toList ++ name ++ (" not found -->").toList

/-- One `re.sub` pass of `resolve_snippets` at a given recursion level:
scan left to right, replacing each non-overlapping match via the Python
`replace_snippet` closure (cache lookup; else read the file under the
name as given or with `.mdx` appended, strip its frontmatter and
surrounding whitespace, resolve nested snippets one level deeper via
`resolveNested`, cache and substitute the result; a missing file
substitutes the inline marker).  The cache is threaded left to right as
the Python closure mutates the global dict.  `fuel` bounds the number of
matches processed; it is called with `length + 1`, which can never be
exhausted since every match consumes at least one character. -/
def snipScan (fs : SnipFS) (resolveNested : Str → Cache → Str × Cache) :
    Nat → Str → Cache → Str × Cache
  | 0, cs, cache => (cs, cache)
  | fuel + 1, cs, cache =>
    match findSnippet cs with
    | none => (cs, cache)
    | some (pre, name, after) =>
      let rc :=
        match lookupCache cache name with
        | some v => (v, cache)
        | none =>
          let read :=
            match fs name with
            | some raw => some raw
            | none =>
              if ((".mdx").toList).isSuffixOf name then none
              else fs (name ++ (".mdx").toList)
          match read with
          | some raw =>
            let body := pyStrip isPySpace ((pfSplit raw).map Prod.snd |>.getD raw)
            let rr := resolveNested body cache
            (rr.1, cacheInsert rr.2 name rr.1)
          | none => (notFoundComment name, cache)
      let tail := snipScan fs resolveNested fuel after rc.2
      (pre ++ rc.1 ++ tail.1, tail.2)

/-- `resolve_snippets(content, max_depth)` from `content.py`, with the
snippets directory and the `_snippet_cache` explicit.  `max_depth <= 0`
returns the content unchanged; otherwise one substitution pass runs with
nested snippets resolved at `max_depth - 1`. -/
def resolve_snippets (fs : SnipFS) : Nat → Str → Cache → Str × Cache
  | 0, content, cache => (content, cache)
  | d + 1, content, cache =>
    snipScan fs (fun body c => resolve_snippets fs d body c)
      (content.length + 1) content cache

/-! ## content.py : document loading and formatting -/

/-- `read_mdx_file(file_path)` from `content.py` with the file's raw text
given directly (the read succeeded), the yaml parser abstract, and the
snippet state explicit: parse the frontmatter, then resolve snippet tags
at the default `max_depth = 3`. -/
def read_mdx_file (yaml : Str → Option Frontmatter) (fs : SnipFS)
    (cache : Cache) (raw : Str) : Frontmatter × Str × Cache :=
  let fmBody := parse_frontmatter yaml raw
  let rc := resolve_snippets fs 3 fmBody.2 cache
  (fmBody.1, rc.1, rc.2)

/-- `"\n".join(lines)`. -/
def joinNl : List Str → Str
  | [] => []
  | [l] => l
  | l :: l2 :: rest => l ++ '\n' :: joinNl (l2 :: rest)

/-- `format_file_content(file_path, relative_path)` from `content.py`,
with the file read modelled by its name and raw content:
`title = frontmatter.get("title", file_path.name)`,
`description = frontmatter.get("description", "")`, then the markdown
block is assembled and joined with newlines. -/
def format_file_content (yaml : Str → Option Frontmatter) (fs : SnipFS)
    (cache : Cache) (fileName relPath raw : Str) : Str :=
  let r := read_mdx_file yaml fs cache raw
  let title := (lookupFm r.1 (("title").toList)).getD fileName
  let description := (lookupFm r.1 (("description").toList)).getD []
  let lines :=
    [("# ").toList ++ title, ("*File: `").toList ++ relPath ++ ("`*").toList]
  let lines :=
    if description ≠ [] then
      lines ++ [("*").toList ++ description ++ ("*").toList]
    else lines
  let lines := lines ++ [[], pyStrip isPySpace r.2.1]
  joinNl lines

/-- `" ".join(words)`. -/
def joinSpace : List Str → Str
  | [] => []
  | [l] => l
  | l :: l2 :: rest => l ++ ' ' :: joinSpace (l2 :: rest)

/-- Modelled from the spec (§4.2 `loadDocument`): "the filename with
separators replaced by spaces and each word capitalized" — the title
fallback the spec claims; compared against the source's actual fallback
(`file_path.name`, unmodified). -/
def specTitleFallback (fileName : Str) : Str :=
  joinSpace ((splitOnChar ' '
    (fileName.map (fun c => if c = '-' ∨ c = '_' then ' ' else c))).map
      (fun w => match w with | [] => [] | c :: rest => Char.toUpper c :: rest))

/-! ## Concrete instances used by counterexamples and witnesses -/

/-- A yaml model that fails on every input, standing for `yaml.safe_load`
raising `yaml.YAMLError` (as it does on headers such as `"bad: ["`) or
returning a falsy value; used only at inputs where the real parser does
fail. -/
def yamlNone : Str → Option Frontmatter := fun _ => none

/-- `.docs/raw` as the canonical base directory `/docs/raw`. -/
def baseDocs : List Str := [("docs").toList, ("raw").toList]

/-- A filesystem holding exactly the sibling-directory file
`/docs/raw2/secret` (plus, implicitly in the real tree, the directories
leading to it — existence of `/docs/raw/../raw2/secret` then holds on
POSIX since `/docs/raw` exists). -/
def fsSibling : PathFS :=
  ⟨fun segs =>
    decide (segs = [("docs").toList, ("raw2").toList, ("secret").toList])⟩

/-- A filesystem holding exactly `/docs/raw/over.mdx`. -/
def fsOver : PathFS :=
  ⟨fun segs =>
    decide (segs = [("docs").toList, ("raw").toList, ("over.mdx").toList])⟩

/-- A snippets directory holding exactly `s.mdx`, whose body includes
itself. -/
def selfFS : SnipFS := fun n =>
  if n = ("s.mdx").toList then some (("A<Snippet file=\"s.mdx\"/>").toList)
  else none

/-- The self-closing inclusion tag `<Snippet file="name"/>` for a
fragment name. -/
def mkSnippetTag (name : Str) : Str :=
  ("<Snippet file=\"").toList ++ name ++ ("\"/>").toList

/-- A document with empty frontmatter and one missing-fragment tag. -/
def c4raw : Str := ("---\na\n---\n---\nmore\n---\nx").toList

/-- Search corpus for the C3 witness (the spec §8 scenario). -/
def filesEx : List (Str × Str) :=
  [((("basics/agents/overview.mdx").toList : Str),
    (("---\ntitle: Agents Overview\n---\nstreaming support here").toList : Str)),
   ((("other/none.mdx").toList : Str), (("nothing relevant").toList : Str))]

/-- Concrete full-match score for the C10 witness. -/
def scoreFull : FileScore :=
  { path := ("p").toList, keyword_matches := [("a").toList, ("b").toList],
    total_matches := 2, title_matches := 0, path_relevance := 0 }

/-- Concrete strict-subset score for the C10 witness. -/
def scorePartial : FileScore :=
  { path := ("q").toList, keyword_matches := [("a").toList],
    total_matches := 2, title_matches := 0, path_relevance := 0 }

/-! ## Claim C2 -/

/-- C2: for every scored file, the final ranking score equals
`totalOccurrences*1 + titleOccurrences*3 + pathRelevance*2 +
|matchedKeywords|*5`, plus 10 exactly when the number of distinct
matched keywords equals the number of requested keywords
(`keyword_matches` is duplicate-free, so its length is the size of the
Python set). -/
theorem C2_theorem (score : FileScore) (total_keywords : Nat) :
    calculate_final_score score total_keywords =
      score.total_matches * 1 + score.title_matches * 3 +
      score.path_relevance * 2 + score.keyword_matches.length * 5 +
      (if score.keyword_matches.length = total_keywords then 10 else 0) :=
  rfl

/-! ## Claim C1 -/

/-- C1 fails as stated: the path `"../raw2/secret"` contains a `..`
segment, and its canonicalized candidate `/docs/raw2/secret` lies
outside the canonicalized root `/docs/raw` (it is not a descendant:
the segment lists are not prefix-related), yet `resolve_doc_path`
returns `found = true` when `/docs/raw2/secret` exists: the guard only
compares canonical path *strings* with `startswith`, and
`"/docs/raw2/secret"` starts with `"/docs/raw"`. -/
theorem C1_counterexample :
    (("..").toList ∈ splitSegs (("../raw2/secret").toList)) ∧
    ((canonicalize baseDocs).isPrefixOf
        (canonicalize (joinRel baseDocs (("../raw2/secret").toList))) = false) ∧
    resolve_doc_path fsSibling (("../raw2/secret").toList) baseDocs =
      (joinRel baseDocs (("../raw2/secret").toList), true) := by
  refine ⟨by decide, by decide, by decide⟩

/-- C1 amended: for every non-empty normalized path whose canonicalized
candidate string is not prefixed by the canonicalized root string,
`resolve_doc_path` returns the candidate with `found = false`; the guard
is applied before any existence check (the result is independent of the
filesystem), and it never raises (the model is total). -/
theorem C1_theorem (fs fs2 : PathFS) (doc_path : Str) (base_dir : List Str)
    (hne : pyStrip isPySpace (pyStrip (fun c => c == '/') doc_path) ≠ [])
    (hguard : is_safe_path base_dir
        (joinRel base_dir
          (pyStrip isPySpace (pyStrip (fun c => c == '/') doc_path))) = false) :
    resolve_doc_path fs doc_path base_dir =
      (joinRel base_dir
        (pyStrip isPySpace (pyStrip (fun c => c == '/') doc_path)), false) ∧
    resolve_doc_path fs doc_path base_dir =
      resolve_doc_path fs2 doc_path base_dir := by
  unfold resolve_doc_path
  simp only [hne, if_false, hguard]
  simp

/-- Witness for C1: `"../../etc/passwd"` escapes the prefix guard, so the
result is `found = false` for every filesystem. -/
theorem C1_witness :
    resolve_doc_path fsSibling (("../../etc/passwd").toList) baseDocs =
      (joinRel baseDocs (("../../etc/passwd").toList), false) ∧
    resolve_doc_path fsSibling (("../../etc/passwd").toList) baseDocs =
      resolve_doc_path fsOver (("../../etc/passwd").toList) baseDocs :=
  C1_theorem fsSibling fsOver (("../../etc/passwd").toList) baseDocs
    (by decide) (by decide)

/-! ## Claim C5 -/

/-- C5 fails as stated: when the delimited header fails to parse (here
`"bad: ["`, on which `yaml.safe_load` raises), `parse_frontmatter`
returns the empty mapping with the text *after* the closing delimiter,
not the original raw input. -/
theorem C5_counterexample :
    parse_frontmatter yamlNone (("---\nbad: [\n---\nbody").toList) =
      ([], ("body").toList) ∧
    parse_frontmatter yamlNone (("---\nbad: [\n---\nbody").toList) ≠
      ([], ("---\nbad: [\n---\nbody").toList) := by
  refine ⟨by decide, by decide⟩

/-- C5 amended: frontmatter parsing never raises (the model is total) and
on failure substitutes the empty mapping; when no closing delimiter is
found (or the input does not start with `---`) the original raw input is
returned unchanged, while when the delimiter is found but the header
fails to parse, the empty mapping is returned with the body *after* the
delimiter (the raw input is not preserved). -/
theorem C5_theorem (yaml : Str → Option Frontmatter) (raw : Str) :
    (pfSplit raw = none → parse_frontmatter yaml raw = ([], raw)) ∧
    (∀ fmStr remaining, pfSplit raw = some (fmStr, remaining) →
      yaml fmStr = none → parse_frontmatter yaml raw = ([], remaining)) := by
  constructor
  · intro h
    simp [parse_frontmatter, h]
  · intro fmStr remaining h hy
    simp [parse_frontmatter, h, hy]

/-- Witness for C5, covering both failure modes at concrete inputs. -/
theorem C5_witness :
    parse_frontmatter yamlNone (("---\nunclosed").toList) =
      ([], ("---\nunclosed").toList) ∧
    parse_frontmatter yamlNone (("---\nbad: [\n---\nrest").toList) =
      ([], ("rest").toList) :=
  ⟨(C5_theorem yamlNone (("---\nunclosed").toList)).1 (by decide),
   (C5_theorem yamlNone (("---\nbad: [\n---\nrest").toList)).2
     (("\nbad: [").toList) (("rest").toList) (by decide) rfl⟩

/-! ## Claim C4 -/

/-- C4 fails as stated: `parse_frontmatter` is not idempotent.  For
`raw = "---\na\n---\n---\nmore\n---\nx"` the first parse returns the
body `"---\nmore\n---\nx"`, which itself begins with a delimiter pair,
so the second parse strips it again instead of returning
`({}, body)` unchanged. -/
theorem C4_counterexample :
    (parse_frontmatter yamlNone c4raw).2 = ("---\nmore\n---\nx").toList ∧
    parse_frontmatter yamlNone (parse_frontmatter yamlNone c4raw).2 ≠
      ([], (parse_frontmatter yamlNone c4raw).2) := by
  refine ⟨by decide, by decide⟩

/-- C4 amended: parsing the body output of a previous parse returns
`({}, body)` unchanged provided that body does not itself begin with the
three-dash delimiter (re-parsing is then a no-op for any yaml model). -/
theorem C4_theorem (yaml yaml2 : Str → Option Frontmatter) (raw : Str)
    (h : (("---").toList).isPrefixOf (parse_frontmatter yaml raw).2 = false) :
    parse_frontmatter yaml2 (parse_frontmatter yaml raw).2 =
      ([], (parse_frontmatter yaml raw).2) := by
  revert h
  generalize (parse_frontmatter yaml raw).2 = body
  intro h
  unfold parse_frontmatter pfSplit
  rw [h]
  simp

/-- Witness for C4 at a well-formed document. -/
theorem C4_witness :
    parse_frontmatter yamlNone
        (parse_frontmatter yamlNone (("---\ntitle: x\n---\nbody text").toList)).2 =
      ([], (parse_frontmatter yamlNone
              (("---\ntitle: x\n---\nbody text").toList)).2) :=
  C4_theorem yamlNone yamlNone (("---\ntitle: x\n---\nbody text").toList)
    (by decide)

/-! ## Claim C10 -/

/-- C10: all else equal, a file whose matched-keyword set is the full
requested keyword set scores strictly higher than one whose
matched-keyword set is a strict subset of it, so it is ranked ahead
under the descending sort.  Match sets are duplicate-free (Python sets),
equality/subsetness is stated by membership, and the requested keyword
count is the length of the keyword list as in
`calculate_final_score(score, len(keywords))`. -/
theorem C10_theorem (s1 s2 : FileScore) (kws : List Str)
    (ht : s1.total_matches = s2.total_matches)
    (hti : s1.title_matches = s2.title_matches)
    (hp : s1.path_relevance = s2.path_relevance)
    (hn1 : s1.keyword_matches.Nodup) (hn2 : s2.keyword_matches.Nodup)
    (hfull1 : ∀ k ∈ s1.keyword_matches, k ∈ kws)
    (_hfull2 : ∀ k ∈ kws, k ∈ s1.keyword_matches)
    (hsub : ∀ k ∈ s2.keyword_matches, k ∈ s1.keyword_matches)
    (hstrict : ∃ k ∈ s1.keyword_matches, k ∉ s2.keyword_matches) :
    calculate_final_score s2 kws.length < calculate_final_score s1 kws.length := by
  have hlt : s2.keyword_matches.length < s1.keyword_matches.length := by
    have hss : s2.keyword_matches.toFinset ⊂ s1.keyword_matches.toFinset := by
      have hsubf : s2.keyword_matches.toFinset ⊆ s1.keyword_matches.toFinset := by
        intro k hk
        rw [List.mem_toFinset] at *
        exact hsub k hk
      rw [Finset.ssubset_iff_of_subset hsubf]
      obtain ⟨k, hk1, hk2⟩ := hstrict
      exact ⟨k, List.mem_toFinset.mpr hk1, fun hk => hk2 (List.mem_toFinset.mp hk)⟩
    have := Finset.card_lt_card hss
    rwa [List.toFinset_card_of_nodup hn1, List.toFinset_card_of_nodup hn2] at this
  have hle : s1.keyword_matches.length ≤ kws.length := by
    have hsubf : s1.keyword_matches.toFinset ⊆ kws.toFinset := by
      intro k hk
      rw [List.mem_toFinset] at *
      exact hfull1 k hk
    have h1 := Finset.card_le_card hsubf
    have h2 := List.toFinset_card_le (l := kws)
    rw [List.toFinset_card_of_nodup hn1] at h1
    omega
  simp only [calculate_final_score, ht, hti, hp]
  split_ifs <;> omega

/-- Witness for C10 at a concrete pair of scores over keywords
`["a", "b"]`. -/
theorem C10_witness :
    calculate_final_score scorePartial
        ([("a").toList, ("b").toList] : List Str).length <
      calculate_final_score scoreFull
        ([("a").toList, ("b").toList] : List Str).length :=
  C10_theorem scoreFull scorePartial [("a").toList, ("b").toList]
    rfl rfl rfl (by decide) (by decide) (by decide) (by decide) (by decide)
    (by decide)

/-! ## Claim C6 -/

/-- C6: fragment resolution terminates for every body (the model is a
total function).  At `max_depth = 0` the body is returned with no
substitution; each level `max_depth + 1` performs one substitution pass
in which nested fragments are resolved at `max_depth` (the call depth
decreases by one per recursive resolution step); and the self-including
fragment `s.mdx` (whose body is `A<Snippet file="s.mdx"/>`) is expanded
exactly 3 = `max_depth` times at the default depth, leaving one
unexpanded tag — witnessed by the literal result, whose `A` count is 3. -/
theorem C6_theorem :
    (∀ (fs : SnipFS) (content : Str) (cache : Cache),
      resolve_snippets fs 0 content cache = (content, cache)) ∧
    (∀ (fs : SnipFS) (d : Nat) (content : Str) (cache : Cache),
      resolve_snippets fs (d + 1) content cache =
        snipScan fs (fun body c => resolve_snippets fs d body c)
          (content.length + 1) content cache) ∧
    resolve_snippets selfFS 3 (mkSnippetTag (("s.mdx").toList)) [] =
      ((("AAA<Snippet file=\"s.mdx\"/>").toList : Str),
       ([((("s.mdx").toList : Str),
          (("AAA<Snippet file=\"s.mdx\"/>").toList : Str))] : Cache)) ∧
    (resolve_snippets selfFS 3 (mkSnippetTag (("s.mdx").toList)) []).1.count
        'A' = 3 := by
  refine ⟨fun fs content cache => rfl, fun fs d content cache => rfl,
    by decide, by decide⟩

/-! ## Claim C7 -/

/-- `takeWhile` over a satisfying run followed by a failing character. -/
theorem takeWhile_append_stop (p : Char → Bool) (l1 : Str) (c : Char) (l2 : Str)
    (h1 : ∀ a ∈ l1, p a = true) (h2 : p c = false) :
    (l1 ++ c :: l2).takeWhile p = l1 := by
  induction l1 with
  | nil => simp [List.takeWhile_cons, h2]
  | cons a as ih =>
    rw [List.cons_append, List.takeWhile_cons, h1 a (List.mem_cons_self a as)]
    simp only [if_true]
    rw [ih (fun b hb => h1 b (List.mem_cons_of_mem a hb))]

/-- A substitution pass over an empty string is the identity at any fuel. -/
theorem snipScan_nil (fs : SnipFS) (r : Str → Cache → Str × Cache)
    (fuel : Nat) (cache : Cache) : snipScan fs r fuel [] cache = ([], cache) := by
  cases fuel with
  | zero => rfl
  | succ f => rfl

/-- The snippet tag, spelled out character by character. -/
theorem mkSnippetTag_eq (name : Str) :
    mkSnippetTag name =
      '<' :: 'S' :: 'n' :: 'i' :: 'p' :: 'p' :: 'e' :: 't' :: ' ' :: 'f' ::
      'i' :: 'l' :: 'e' :: '=' :: '"' :: (name ++ ['"', '/', '>']) := by
  show (("<Snippet file=\"").toList ++ name ++ ("\"/>").toList) = _
  rw [show (("<Snippet file=\"").toList : Str) =
        ['<','S','n','i','p','p','e','t',' ','f','i','l','e','=','"'] from rfl,
      show (("\"/>").toList : Str) = ['"','/','>'] from rfl]
  simp

/-- `Char.toLower` maps only uppercase letters elsewhere, so the only
character lowercasing to `<` is `<` itself: no snippet-tag match can
start at any other character. -/
theorem toLower_eq_angle (c : Char) (h : Char.toLower c = '<') : c = '<' := by
  unfold Char.toLower at h
  simp only [] at h
  split at h
  · exfalso
    rename_i hn
    obtain ⟨h1, h2⟩ := hn
    set n := c.toNat with hndef
    interval_cases n <;> exact absurd h (by decide)
  · exact h

/-- The snippet tag followed by arbitrary text, character by character. -/
theorem mkSnippetTag_append_eq (name v : Str) :
    mkSnippetTag name ++ v =
      '<' :: 'S' :: 'n' :: 'i' :: 'p' :: 'p' :: 'e' :: 't' :: ' ' :: 'f' ::
      'i' :: 'l' :: 'e' :: '=' :: '"' :: (name ++ '"' :: '/' :: '>' :: v) := by
  rw [mkSnippetTag_eq]
  simp

/-- The snippet-tag regex matches `<Snippet file="name"/>` at position 0
of any string starting with it, capturing exactly `name`, for any
non-empty quote-free name. -/
theorem matchSnippetAt_tag_append (name v : Str) (hne : name ≠ [])
    (hq : ∀ c ∈ name, snipNameChar c = true) :
    matchSnippetAt (mkSnippetTag name ++ v) = some (name, v) := by
  have etw : (name ++ '"' :: '/' :: '>' :: v).takeWhile snipNameChar = name :=
    takeWhile_append_stop snipNameChar name '"' ('/' :: '>' :: v) hq rfl
  have e5 : capture (name ++ '"' :: '/' :: '>' :: v) =
      some (name, '"' :: '/' :: '>' :: v) := by
    unfold capture
    rw [etw]
    simp only [hne, if_false]
    rw [show ('"' :: '/' :: '>' :: v) = ['"', '/', '>'] ++ v from rfl,
        List.drop_left]
  rw [mkSnippetTag_append_eq]
  unfold matchSnippetAt
  rw [show ciPrefix (("<snippet").toList)
      ('<' :: 'S' :: 'n' :: 'i' :: 'p' :: 'p' :: 'e' :: 't' :: ' ' :: 'f' ::
       'i' :: 'l' :: 'e' :: '=' :: '"' :: (name ++ '"' :: '/' :: '>' :: v)) =
      some (' ' :: 'f' :: 'i' :: 'l' :: 'e' :: '=' :: '"' ::
        (name ++ '"' :: '/' :: '>' :: v)) from rfl]
  simp only [Option.some_bind]
  rw [show reqSpace (' ' :: 'f' :: 'i' :: 'l' :: 'e' :: '=' :: '"' ::
      (name ++ '"' :: '/' :: '>' :: v)) =
      some ('f' :: 'i' :: 'l' :: 'e' :: '=' :: '"' ::
        (name ++ '"' :: '/' :: '>' :: v)) from rfl]
  simp only [Option.some_bind]
  rw [show ciPrefix (("file=").toList)
      ('f' :: 'i' :: 'l' :: 'e' :: '=' :: '"' ::
        (name ++ '"' :: '/' :: '>' :: v)) =
      some ('"' :: (name ++ '"' :: '/' :: '>' :: v)) from rfl]
  simp only [Option.some_bind]
  rw [show reqQuote ('"' :: (name ++ '"' :: '/' :: '>' :: v)) =
      some (name ++ '"' :: '/' :: '>' :: v) from rfl]
  simp only [Option.some_bind]
  rw [e5]
  simp only [Option.some_bind]
  rw [show reqQuote ('"' :: '/' :: '>' :: v) = some ('/' :: '>' :: v) from rfl]
  simp only [Option.some_bind]
  rw [show reqClose ('/' :: '>' :: v) = some v from rfl]
  simp only [Option.some_bind]

/-- No snippet-tag match starts at a character other than `<` (the
case-insensitive literal `<Snippet` fails on its first character). -/
theorem matchSnippetAt_none_of_ne_angle (c : Char) (h : c ≠ '<') (rest : Str) :
    matchSnippetAt (c :: rest) = none := by
  unfold matchSnippetAt
  rw [show ciPrefix (("<snippet").toList) (c :: rest) =
      (if Char.toLower c = '<' then ciPrefix (("snippet").toList) rest
       else none) from rfl]
  rw [if_neg (fun hh => h (toLower_eq_angle c hh))]
  rfl

/-- A match at position 0 is the leftmost match. -/
theorem findSnippet_cons_of_match (c : Char) (rest : Str) (name after : Str)
    (h : matchSnippetAt (c :: rest) = some (name, after)) :
    findSnippet (c :: rest) = some ([], name, after) := by
  unfold findSnippet
  rw [h]

/-- In a body `u ++ <Snippet file="name"/> ++ v` whose preceding text `u`
contains no `<`, the tag is the leftmost match, with `u` before it and
`v` after it. -/
theorem findSnippet_prefix (u : Str) (hu : ∀ c ∈ u, c ≠ '<') (name v : Str)
    (hne : name ≠ []) (hq : ∀ c ∈ name, snipNameChar c = true) :
    findSnippet (u ++ mkSnippetTag name ++ v) = some (u, name, v) := by
  induction u with
  | nil =>
    rw [List.nil_append, mkSnippetTag_append_eq]
    refine findSnippet_cons_of_match _ _ _ _ ?_
    rw [← mkSnippetTag_append_eq]
    exact matchSnippetAt_tag_append name v hne hq
  | cons c u2 ih =>
    rw [List.cons_append, List.cons_append]
    unfold findSnippet
    rw [matchSnippetAt_none_of_ne_angle c (hu c (List.mem_cons_self c u2)) _]
    rw [ih (fun a ha => hu a (List.mem_cons_of_mem c ha))]

/-- C7: for every body containing an inclusion tag whose fragment file
does not exist — the body decomposes as `u ++ <Snippet file="name"/> ++ v`,
with arbitrary following text `v` (which may itself contain further
inclusion tags), arbitrary preceding text `u` containing no `<` (so this
tag is the scan's leftmost match), the fragment absent from the snippets
directory both under the name as given and with the document extension
appended, and not cached — fragment resolution at any positive depth
substitutes the visible inline comment `<!-- Snippet name not found -->`
naming the missing fragment in place of the tag and never raises (the
model is total); moreover the containing document's load succeeds: for
any raw document (frontmatter included) whose parsed body is that body,
`read_mdx_file` returns its frontmatter together with the body with the
comment inlined. -/
theorem C7_theorem (fs : SnipFS) (cache : Cache) (d : Nat) (name u v : Str)
    (hne : name ≠ [])
    (hq : ∀ c ∈ name, snipNameChar c = true)
    (hu : ∀ c ∈ u, c ≠ '<')
    (hcache : lookupCache cache name = none)
    (h1 : fs name = none)
    (h2 : fs (name ++ (".mdx").toList) = none) :
    (∃ rest cache2,
      resolve_snippets fs (d + 1) (u ++ mkSnippetTag name ++ v) cache =
        (u ++ notFoundComment name ++ rest, cache2)) ∧
    ∀ yaml : Str → Option Frontmatter, ∀ raw : Str,
      (parse_frontmatter yaml raw).2 = u ++ mkSnippetTag name ++ v →
      ∃ rest cache2,
        read_mdx_file yaml fs cache raw =
          ((parse_frontmatter yaml raw).1,
           u ++ notFoundComment name ++ rest, cache2) := by
  have hfind : findSnippet (u ++ mkSnippetTag name ++ v) = some (u, name, v) :=
    findSnippet_prefix u hu name v hne hq
  have main : ∀ d' : Nat, ∃ rest cache2,
      resolve_snippets fs (d' + 1) (u ++ mkSnippetTag name ++ v) cache =
        (u ++ notFoundComment name ++ rest, cache2) := by
    intro d'
    refine ⟨(snipScan fs (fun body c => resolve_snippets fs d' body c)
              ((u ++ mkSnippetTag name ++ v).length) v cache).1,
            (snipScan fs (fun body c => resolve_snippets fs d' body c)
              ((u ++ mkSnippetTag name ++ v).length) v cache).2, ?_⟩
    simp only [resolve_snippets]
    rw [snipScan, hfind]
    simp only [hcache, h1]
    cases hs : ((".mdx").toList).isSuffixOf name with
    | true =>
      simp only [hs, if_true]
    | false =>
      simp only [hs, if_false, h2]
      rfl
  refine ⟨main d, fun yaml raw hraw => ?_⟩
  obtain ⟨rest, cache2, hres⟩ := main 2
  have hres3 : resolve_snippets fs 3 (u ++ mkSnippetTag name ++ v) cache =
      (u ++ notFoundComment name ++ rest, cache2) := hres
  refine ⟨rest, cache2, ?_⟩
  unfold read_mdx_file
  simp only []
  rw [hraw, hres3]

/-- Witness for C7: the missing fragment `missing` inside a body with
surrounding prose and a second inclusion tag after it, resolved both
directly and through a document whose frontmatter is stripped first. -/
theorem C7_witness :
    (∃ rest cache2,
      resolve_snippets (fun _ => none) 1
          ((("Intro text: ").toList) ++ mkSnippetTag (("missing").toList) ++
            ((" and more <Snippet file=\"other\"/> end").toList)) [] =
        ((("Intro text: ").toList) ++
           notFoundComment (("missing").toList) ++ rest, cache2)) ∧
    (∃ rest cache2,
      read_mdx_file yamlNone (fun _ => none) []
          (("---\ntitle: t\n---\nIntro text: <Snippet file=\"missing\"/> and more <Snippet file=\"other\"/> end").toList) =
        ((parse_frontmatter yamlNone
            (("---\ntitle: t\n---\nIntro text: <Snippet file=\"missing\"/> and more <Snippet file=\"other\"/> end").toList)).1,
         (("Intro text: ").toList) ++
           notFoundComment (("missing").toList) ++ rest, cache2)) :=
  ⟨(C7_theorem (fun _ => none) [] 0 (("missing").toList)
      (("Intro text: ").toList)
      ((" and more <Snippet file=\"other\"/> end").toList)
      (by decide) (by decide) (by decide) rfl rfl rfl).1,
   (C7_theorem (fun _ => none) [] 0 (("missing").toList)
      (("Intro text: ").toList)
      ((" and more <Snippet file=\"other\"/> end").toList)
      (by decide) (by decide) (by decide) rfl rfl rfl).2
     yamlNone
     (("---\ntitle: t\n---\nIntro text: <Snippet file=\"missing\"/> and more <Snippet file=\"other\"/> end").toList)
     (by decide)⟩

/-! ## Claim C3 -/

/-- Membership is preserved by stable descending insertion. -/
theorem mem_insertDesc (key : FileScore → Nat) (x y : FileScore)
    (l : List FileScore) : y ∈ insertDesc key x l ↔ y = x ∨ y ∈ l := by
  induction l with
  | nil => simp [insertDesc]
  | cons a as ih =>
    unfold insertDesc
    split
    · simp [List.mem_cons]
    · simp only [List.mem_cons, ih]
      tauto

/-- The stable descending sort permutes its input (membership view). -/
theorem mem_stableSortDesc (key : FileScore → Nat) (l : List FileScore)
    (y : FileScore) : y ∈ stableSortDesc key l ↔ y ∈ l := by
  induction l with
  | nil => simp [stableSortDesc]
  | cons a as ih => simp [stableSortDesc, mem_insertDesc, ih]

/-- The keyword step never changes the score's path. -/
theorem scanKw_path (line ll : Str) (s : FileScore) (kw : Str) :
    (scanKw line ll s kw).path = s.path := by
  unfold scanKw
  split <;> rfl

/-- The keyword loop never changes the score's path. -/
theorem foldl_scanKw_path (line ll : Str) (kws : List Str) :
    ∀ s : FileScore, (kws.foldl (scanKw line ll) s).path = s.path := by
  induction kws with
  | nil => intro s; rfl
  | cons k ks ih =>
    intro s
    rw [List.foldl_cons, ih, scanKw_path]

/-- The line loop never changes the score's path. -/
theorem foldl_scanLine_path (kws : List Str) (lines : List Str) :
    ∀ s : FileScore,
      (lines.foldl (fun s line => scanLine kws line s) s).path = s.path := by
  induction lines with
  | nil => intro s; rfl
  | cons l ls ih =>
    intro s
    rw [List.foldl_cons, ih]
    unfold scanLine
    rw [foldl_scanKw_path]

/-- A scored file carries the relative path it was scanned under. -/
theorem scoreFile_path (kws : List Str) (relPath content : Str) :
    (scoreFile kws relPath content).path = relPath := by
  unfold scoreFile
  rw [foldl_scanLine_path]

/-- Soundness of one keyword step: a keyword in the resulting match set
was already there, or is the scanned keyword and occurs in the line. -/
theorem scanKw_matches (line ll : Str) (s : FileScore) (kw k : Str)
    (h : k ∈ (scanKw line ll s kw).keyword_matches) :
    k ∈ s.keyword_matches ∨
      (k = kw ∧ containsSub (lowerStr kw) ll = true) := by
  revert h
  unfold scanKw
  split
  · intro h
    simp only [setInsert] at h
    split at h
    · exact Or.inl h
    · rw [List.mem_append, List.mem_singleton] at h
      rcases h with h | h
      · exact Or.inl h
      · rename_i hc _
        exact Or.inr ⟨h, hc⟩
  · intro h
    exact Or.inl h

/-- Soundness of the keyword loop over one line. -/
theorem foldl_scanKw_matches (line ll : Str) (kws : List Str) :
    ∀ (s : FileScore) (k : Str),
      k ∈ (kws.foldl (scanKw line ll) s).keyword_matches →
      k ∈ s.keyword_matches ∨
        (k ∈ kws ∧ containsSub (lowerStr k) ll = true) := by
  induction kws with
  | nil => intro s k h; exact Or.inl h
  | cons kw ks ih =>
    intro s k h
    rw [List.foldl_cons] at h
    rcases ih _ k h with h1 | ⟨h2, h3⟩
    · rcases scanKw_matches line ll s kw k h1 with h4 | ⟨rfl, h5⟩
      · exact Or.inl h4
      · exact Or.inr ⟨List.mem_cons_self k ks, h5⟩
    · exact Or.inr ⟨List.mem_cons_of_mem kw h2, h3⟩

/-- Soundness of the line loop: every matched keyword occurs
case-insensitively in some scanned line. -/
theorem foldl_scanLine_matches (kws : List Str) (lines : List Str) :
    ∀ (s : FileScore) (k : Str),
      k ∈ (lines.foldl (fun s line => scanLine kws line s) s).keyword_matches →
      k ∈ s.keyword_matches ∨
        (k ∈ kws ∧ ∃ line ∈ lines,
          containsSub (lowerStr k) (lowerStr line) = true) := by
  induction lines with
  | nil => intro s k h; exact Or.inl h
  | cons l ls ih =>
    intro s k h
    rw [List.foldl_cons] at h
    rcases ih _ k h with h1 | ⟨h2, line, h3, h4⟩
    · rcases foldl_scanKw_matches l (lowerStr l) kws s k h1 with h4 | ⟨h5, h6⟩
      · exact Or.inl h4
      · exact Or.inr ⟨h5, l, List.mem_cons_self l ls, h6⟩
    · exact Or.inr ⟨h2, line, List.mem_cons_of_mem l h3, h4⟩

/-- A keyword matched by `scoreFile` is a requested keyword occurring
case-insensitively in some line of the file's content. -/
theorem scoreFile_matches (kws : List Str) (relPath content : Str) (k : Str)
    (h : k ∈ (scoreFile kws relPath content).keyword_matches) :
    k ∈ kws ∧ ∃ line ∈ splitOnChar '\n' content,
      containsSub (lowerStr k) (lowerStr line) = true := by
  unfold scoreFile at h
  rcases foldl_scanLine_matches kws (splitOnChar '\n' content) _ k h with h1 | h2
  · simp at h1
  · exact h2

/-- C3: `search_documents` returns at most `limit` paths, and every
returned path is the relative path of a corpus file some line of whose
content contains at least one requested keyword as a case-insensitive
substring (files with zero matched keywords are excluded, since only
scores with a non-empty match set survive the filter). -/
theorem C3_theorem (kws : List Str) (files : List (Str × Str)) (limit : Nat) :
    (search_documents kws files limit).length ≤ limit ∧
    ∀ p ∈ search_documents kws files limit,
      ∃ pc ∈ files, pc.1 = p ∧
        ∃ line ∈ splitOnChar '\n' pc.2,
          ∃ kw ∈ kws, containsSub (lowerStr kw) (lowerStr line) = true := by
  unfold search_documents
  split
  · simp
  · constructor
    · simp only [List.length_map, List.length_take]
      exact min_le_left _ _
    · intro p hp
      rw [List.mem_map] at hp
      obtain ⟨s, hs_take, rfl⟩ := hp
      have hs_ranked := List.mem_of_mem_take hs_take
      rw [mem_stableSortDesc, List.mem_filter] at hs_ranked
      obtain ⟨hs_mem, hs_ne⟩ := hs_ranked
      rw [List.mem_map] at hs_mem
      obtain ⟨pc, hpc, rfl⟩ := hs_mem
      refine ⟨pc, hpc, (scoreFile_path kws pc.1 pc.2).symm, ?_⟩
      have hne : (scoreFile kws pc.1 pc.2).keyword_matches ≠ [] := by
        simpa using hs_ne
      obtain ⟨k, hk⟩ := List.exists_mem_of_ne_nil _ hne
      obtain ⟨hk_kws, line, hline, hcs⟩ := scoreFile_matches kws pc.1 pc.2 k hk
      exact ⟨line, hline, k, hk_kws, hcs⟩

/-- Witness for C3 at the spec §8 scenario corpus. -/
theorem C3_witness :
    (search_documents [("streaming").toList] filesEx 10).length ≤ 10 ∧
    (∃ pc ∈ filesEx, pc.1 = ("basics/agents/overview.mdx").toList ∧
      ∃ line ∈ splitOnChar '\n' pc.2,
        ∃ kw ∈ [("streaming").toList],
          containsSub (lowerStr kw) (lowerStr line) = true) :=
  ⟨(C3_theorem [("streaming").toList] filesEx 10).1,
   (C3_theorem [("streaming").toList] filesEx 10).2
     (("basics/agents/overview.mdx").toList) (by decide)⟩

/-! ## Claim C8 -/

/-- `takeWhile` over an all-satisfying list. -/
theorem takeWhile_all (p : Char → Bool) :
    ∀ l : Str, (∀ c ∈ l, p c = true) → l.takeWhile p = l := by
  intro l h
  induction l with
  | nil => rfl
  | cons c cs ih =>
    rw [List.takeWhile_cons, h c (List.mem_cons_self c cs)]
    simp only [if_true]
    rw [ih (fun a ha => h a (List.mem_cons_of_mem c ha))]

/-- `dropWhile` over a list with no satisfying character. -/
theorem dropWhile_all_false (p : Char → Bool) (s : Str)
    (h : ∀ c ∈ s, p c = false) : s.dropWhile p = s := by
  cases s with
  | nil => rfl
  | cons c cs =>
    rw [List.dropWhile_cons, h c (List.mem_cons_self c cs)]
    simp

/-- `strip` is the identity when no character is strippable. -/
theorem pyStrip_id (p : Char → Bool) (s : Str)
    (h : ∀ c ∈ s, p c = false) : pyStrip p s = s := by
  unfold pyStrip
  rw [dropWhile_all_false p s h,
      dropWhile_all_false p s.reverse (fun c hc => h c (List.mem_reverse.mp hc)),
      List.reverse_reverse]

/-- Splitting a string that does not contain the separator. -/
theorem splitOnChar_no_sep (sep : Char) (s : Str)
    (h : ∀ c ∈ s, c ≠ sep) : splitOnChar sep s = [s] := by
  induction s with
  | nil => rfl
  | cons c cs ih =>
    unfold splitOnChar
    rw [if_neg (h c (List.mem_cons_self c cs))]
    rw [ih (fun a ha => h a (List.mem_cons_of_mem c ha))]

/-- A separator-free, non-empty, non-`.` string is a single component. -/
theorem splitSegs_single (s : Str) (hne : s ≠ [])
    (hslash : ∀ c ∈ s, c ≠ '/') (hdot : s ≠ (".").toList) :
    splitSegs s = [s] := by
  unfold splitSegs
  rw [splitOnChar_no_sep '/' s hslash]
  simp [hne, show s ≠ ['.'] from hdot]

/-- Canonicalization distributes over appending one ordinary segment. -/
theorem canonicalize_append_one (l : List Str) (s : Str) (h0 : s ≠ [])
    (h1 : s ≠ (".").toList) (h2 : s ≠ ("..").toList) :
    canonicalize (l ++ [s]) = canonicalize l ++ [s] := by
  unfold canonicalize
  rw [List.foldl_append]
  simp [h0, show s ≠ ['.'] from h1, show s ≠ ['.', '.'] from h2]

/-- Path strings grow by `/segment`. -/
theorem pathStr_append_one (l : List Str) (s : Str) :
    pathStr (l ++ [s]) = pathStr l ++ '/' :: s := by
  unfold pathStr
  rw [List.foldl_append]
  rfl

/-- A list is a prefix of itself extended. -/
theorem isPrefixOf_append_self (l r : Str) : l.isPrefixOf (l ++ r) = true := by
  rw [List.isPrefixOf_iff_prefix]
  exact List.prefix_append l r

/-- A direct child of the base always passes the traversal guard. -/
theorem is_safe_path_child (base : List Str) (s : Str) (h0 : s ≠ [])
    (h1 : s ≠ (".").toList) (h2 : s ≠ ("..").toList) :
    is_safe_path base (base ++ [s]) = true := by
  unfold is_safe_path
  rw [canonicalize_append_one _ _ h0 h1 h2, pathStr_append_one]
  exact isPrefixOf_append_self _ _

/-- `with_suffix` appends when the name has no dot. -/
theorem dropExt_no_dot (s : Str) (h : ∀ c ∈ s, c ≠ '.') : dropExt s = s := by
  unfold dropExt
  simp only []
  rw [takeWhile_all _ s.reverse
    (fun c hc => by simp [h c (List.mem_reverse.mp hc)])]
  simp

/-- `with_suffix` acts on the last segment only. -/
theorem withSuffix_append_one (base : List Str) (x : Str) (ext : Str) :
    withSuffix (base ++ [x]) ext = base ++ [dropExt x ++ ext] := by
  unfold withSuffix
  rw [List.dropLast_concat, List.getLastD_concat]

/-- Joining a relative (slash-free) string appends its components. -/
theorem joinRel_of_no_slash (base : List Str) (s : Str)
    (h : ∀ c ∈ s, c ≠ '/') : joinRel base s = base ++ splitSegs s := by
  unfold joinRel
  cases s with
  | nil => rw [if_neg (by decide)]
  | cons c cs =>
    rw [if_neg (by simp only [List.headD_cons]
                   exact h c (List.mem_cons_self c cs))]

/-- The characters of the `.mdx` extension. -/
theorem mem_mdx_chars (c : Char) (hc : c ∈ ((".mdx").toList : Str)) :
    c ≠ '/' ∧ isPySpace c = false := by
  rw [show ((".mdx").toList : Str) = ['.', 'm', 'd', 'x'] from rfl] at hc
  simp only [List.mem_cons, List.not_mem_nil, or_false] at hc
  rcases hc with rfl | rfl | rfl | rfl <;> exact ⟨by decide, by decide⟩

/-- C8: (i) for every normalized non-empty path that passes the traversal
guard, `resolve_doc_path` behaves exactly as the spec's cascade
(`resolve_cascade_spec`): the exact candidate if it exists, else the
candidate with its trailing extension replaced by `.mdx` if that exists,
else by `.md` if that exists, first match wins with `found = true`, and
otherwise the original exact candidate with `found = false`; and
(ii) for a file stored as `x.mdx` (and no sibling `x`), both
`resolve(x, root)` and `resolve(x.mdx, root)` return the same location
`root/x.mdx` with `found = true`. -/
theorem C8_theorem :
    (∀ (fs : PathFS) (doc_path : Str) (base_dir : List Str),
      pyStrip isPySpace (pyStrip (fun c => c == '/') doc_path) ≠ [] →
      is_safe_path base_dir
        (joinRel base_dir
          (pyStrip isPySpace (pyStrip (fun c => c == '/') doc_path))) = true →
      resolve_doc_path fs doc_path base_dir =
        resolve_cascade_spec fs
          (joinRel base_dir
            (pyStrip isPySpace (pyStrip (fun c => c == '/') doc_path)))) ∧
    (∀ (fs : PathFS) (base_dir : List Str) (x : Str),
      x ≠ [] →
      (∀ c ∈ x, c ≠ '/' ∧ c ≠ '.' ∧ isPySpace c = false) →
      fs.has (canonicalize (base_dir ++ [x])) = false →
      fs.has (canonicalize (base_dir ++ [x ++ (".mdx").toList])) = true →
      resolve_doc_path fs x base_dir =
        (base_dir ++ [x ++ (".mdx").toList], true) ∧
      resolve_doc_path fs (x ++ (".mdx").toList) base_dir =
        (base_dir ++ [x ++ (".mdx").toList], true)) := by
  constructor
  · intro fs doc_path base_dir hne hguard
    unfold resolve_doc_path resolve_cascade_spec
    simp only [hne, hguard, if_false, ite_false, ite_true, not_true]
  · intro fs base_dir x hxe hch hmiss hhit
    have hx_slash : ∀ c ∈ x, c ≠ '/' := fun c hc => (hch c hc).1
    have hx_dot : ∀ c ∈ x, c ≠ '.' := fun c hc => (hch c hc).2.1
    have hx_space : ∀ c ∈ x, isPySpace c = false := fun c hc => (hch c hc).2.2
    have hx_slashb : ∀ c ∈ x, (c == '/') = false := fun c hc => by
      simp [hx_slash c hc]
    have hx_ne_dot : x ≠ (".").toList := by
      intro hh
      exact hx_dot '.' (by rw [hh]; exact List.mem_singleton.mpr rfl) rfl
    have hx_ne_dd : x ≠ ("..").toList := by
      intro hh
      refine hx_dot '.' ?_ rfl
      rw [hh]
      simp [show (("..").toList : Str) = ['.', '.'] from rfl]
    have hxm_len : (x ++ (".mdx").toList).length = x.length + 4 := by simp
    have hxm_ne : x ++ (".mdx").toList ≠ [] := by
      intro hh
      have := congrArg List.length hh
      rw [hxm_len] at this
      simp at this
    have hxm_ne_dot : x ++ (".mdx").toList ≠ (".").toList := by
      intro hh
      have := congrArg List.length hh
      rw [hxm_len] at this
      simp [show ((".").toList : Str) = ['.'] from rfl] at this
    have hxm_ne_dd : x ++ (".mdx").toList ≠ ("..").toList := by
      intro hh
      have := congrArg List.length hh
      rw [hxm_len] at this
      simp [show (("..").toList : Str) = ['.', '.'] from rfl] at this
    have hxm_slash : ∀ c ∈ x ++ (".mdx").toList, c ≠ '/' := by
      intro c hc
      rcases List.mem_append.mp hc with hc | hc
      · exact hx_slash c hc
      · exact (mem_mdx_chars c hc).1
    have hxm_space : ∀ c ∈ x ++ (".mdx").toList, isPySpace c = false := by
      intro c hc
      rcases List.mem_append.mp hc with hc | hc
      · exact hx_space c hc
      · exact (mem_mdx_chars c hc).2
    have hxm_slashb : ∀ c ∈ x ++ (".mdx").toList, (c == '/') = false :=
      fun c hc => by simp [hxm_slash c hc]
    constructor
    · -- resolve("x")
      have hclean : pyStrip isPySpace (pyStrip (fun c => c == '/') x) = x := by
        rw [pyStrip_id _ _ hx_slashb]
        exact pyStrip_id _ _ hx_space
      have hjoin : joinRel base_dir x = base_dir ++ [x] := by
        rw [joinRel_of_no_slash _ _ hx_slash,
            splitSegs_single x hxe hx_slash hx_ne_dot]
      have hguard1 : is_safe_path base_dir (base_dir ++ [x]) = true :=
        is_safe_path_child _ _ hxe hx_ne_dot hx_ne_dd
      have hws : withSuffix (base_dir ++ [x]) ((".mdx").toList) =
          base_dir ++ [x ++ (".mdx").toList] := by
        rw [withSuffix_append_one, dropExt_no_dot x hx_dot]
      unfold resolve_doc_path
      simp only [hclean, hxe, hjoin, hguard1, hws, hmiss, hhit, if_false,
        ite_false, ite_true, not_true, Bool.false_eq_true]
    · -- resolve("x.mdx")
      have hclean : pyStrip isPySpace
          (pyStrip (fun c => c == '/') (x ++ (".mdx").toList)) =
          x ++ (".mdx").toList := by
        rw [pyStrip_id _ _ hxm_slashb]
        exact pyStrip_id _ _ hxm_space
      have hjoin : joinRel base_dir (x ++ (".mdx").toList) =
          base_dir ++ [x ++ (".mdx").toList] := by
        rw [joinRel_of_no_slash _ _ hxm_slash,
            splitSegs_single _ hxm_ne hxm_slash hxm_ne_dot]
      have hguard1 : is_safe_path base_dir
          (base_dir ++ [x ++ (".mdx").toList]) = true :=
        is_safe_path_child _ _ hxm_ne hxm_ne_dot hxm_ne_dd
      unfold resolve_doc_path
      simp only [hclean, hxm_ne, hjoin, hguard1, hhit, if_false,
        ite_false, ite_true, not_true]

/-- Witness for C8: `over.mdx` under `/docs/raw`. -/
theorem C8_witness :
    resolve_doc_path fsOver (("over").toList) baseDocs =
      resolve_cascade_spec fsOver
        (joinRel baseDocs
          (pyStrip isPySpace (pyStrip (fun c => c == '/') (("over").toList)))) ∧
    resolve_doc_path fsOver (("over").toList) baseDocs =
      (baseDocs ++ [("over").toList ++ (".mdx").toList], true) ∧
    resolve_doc_path fsOver (("over").toList ++ (".mdx").toList) baseDocs =
      (baseDocs ++ [("over").toList ++ (".mdx").toList], true) :=
  ⟨C8_theorem.1 fsOver (("over").toList) baseDocs (by decide) (by decide),
   C8_theorem.2 fsOver baseDocs (("over").toList) (by decide) (by decide)
     (by decide) (by decide)⟩

/-! ## Claim C9 -/

/-- One step of joining lines with newlines. -/
theorem joinNl_cons2 (a b : Str) (rest : List Str) :
    joinNl (a :: b :: rest) = a ++ '\n' :: joinNl (b :: rest) := rfl

/-- C9 amended: when the parsed frontmatter has no `title` key,
`format_file_content` displays as its title the *raw* file name
(`file_path.name`, extension included and untransformed): the formatted
output is `# ` followed by the file name followed by the rest of the
block. -/
theorem C9_theorem (yaml : Str → Option Frontmatter) (fs : SnipFS)
    (cache : Cache) (fileName relPath raw : Str)
    (h : lookupFm (parse_frontmatter yaml raw).1 (("title").toList) = none) :
    ∃ rest, format_file_content yaml fs cache fileName relPath raw =
      ("# ").toList ++ fileName ++ rest := by
  unfold format_file_content read_mdx_file
  simp only [h, Option.getD_none]
  by_cases hd :
      (lookupFm (parse_frontmatter yaml raw).1
        (("description").toList)).getD [] = []
  · rw [if_neg (fun hh => hh hd)]
    refine ⟨'\n' :: joinNl
      ((("*File: `").toList ++ relPath ++ ("`*").toList) ::
        [[], pyStrip isPySpace
          (resolve_snippets fs 3 (parse_frontmatter yaml raw).2 cache).1]), ?_⟩
    simp only [List.cons_append, List.nil_append, joinNl_cons2,
      List.append_assoc]
  · rw [if_pos hd]
    refine ⟨'\n' :: joinNl
      ((("*File: `").toList ++ relPath ++ ("`*").toList) ::
        (("*").toList ++
          (lookupFm (parse_frontmatter yaml raw).1
            (("description").toList)).getD [] ++ ("*").toList) ::
        [[], pyStrip isPySpace
          (resolve_snippets fs 3 (parse_frontmatter yaml raw).2 cache).1]), ?_⟩
    simp only [List.cons_append, List.nil_append, joinNl_cons2,
      List.append_assoc]

/-- C9 fails as stated: for a document `getting-started.mdx` with no
frontmatter, the displayed title is the raw file name
`getting-started.mdx` — the first output line is
`# getting-started.mdx` — and not the spec's claimed fallback
`specTitleFallback` ("separators replaced by spaces and each word
capitalized", here `Getting Started.mdx`), which differs from the raw
name and is not a prefix of the output. -/
theorem C9_counterexample :
    format_file_content yamlNone (fun _ => none) []
        (("getting-started.mdx").toList) (("p").toList) (("hello").toList) =
      ("# getting-started.mdx\n*File: `p`*\n\nhello").toList ∧
    ((("# ").toList ++
        specTitleFallback (("getting-started.mdx").toList)).isPrefixOf
      (format_file_content yamlNone (fun _ => none) []
        (("getting-started.mdx").toList) (("p").toList)
        (("hello").toList))) = false ∧
    specTitleFallback (("getting-started.mdx").toList) ≠
      (("getting-started.mdx").toList) := by
  refine ⟨by decide, by decide, by decide⟩

/-- Witness for C9 at a frontmatter-less document. -/
theorem C9_witness :
    ∃ rest, format_file_content yamlNone (fun _ => none) []
        (("getting-started.mdx").toList) (("p").toList) (("hello").toList) =
      ("# ").toList ++ (("getting-started.mdx").toList) ++ rest :=
  C9_theorem yamlNone (fun _ => none) [] (("getting-started.mdx").toList)
    (("p").toList) (("hello").toList) rfl
